import Mathlib

/-!
Shallow embedding of the Winbond W25 NOR-flash SPI driver
(src/comms.rs: blocking engine `FlashSpi`; src/async_comms.rs: suspending
engine `AsyncFlashSpi`; src/error.rs: the single `Error::Spi` kind).

The SPI transport (embedded-hal `SpiDevice::transaction`) is modelled by an
oracle `Nat → Option (List Nat)`: the i-th bus transaction issued by the
driver receives response `oracle i`; `none` models a transport failure
(`Error::Spi`), `some bs` models success with `bs` the inbound bytes filling
the transaction's read segments.  Every driver operation is a state-passing
function that also emits the list of bus transactions it issued (outbound
bytes and inbound buffer lengths, exactly as handed to the transport) and,
for the suspending engine, the list of `delay_ms` durations it awaited.
Unbounded `while` polling loops take explicit fuel; running out of fuel is
the distinguished outcome `diverge` (the Rust code loops forever there),
kept apart from the driver's only error outcome `spiErr`.
-/

namespace W25

/-- Opcode values, from the `Opcode` enum in src/comms.rs. -/
def opReadMfDId : Nat := 0x90

def opReadJedecId : Nat := 0x9F

def opWriteEnable : Nat := 0x06

def opReadStatus : Nat := 0x05

def opRead : Nat := 0x03

def opPageProg : Nat := 0x02

def opSectorErase : Nat := 0x20

def opChipErase : Nat := 0xC7

def opEnableReset : Nat := 0x66

def opReset : Nat := 0x99

/-- Status register bits, from the `defmt::bitflags!` block in src/comms.rs. -/
def statusBUSY : Nat := 1 <<< 0

def statusWEL : Nat := 1 <<< 1

def statusPROT : Nat := 0b00011100

def statusSRWD : Nat := 1 <<< 7

/-- Union of all defined status bits (what `bitflags` calls `all()`). -/
def statusAllBits : Nat := statusBUSY ||| statusWEL ||| statusPROT ||| statusSRWD

/-- `Status::from_bits_truncate`: keep the defined bits, drop the rest. -/
def fromBitsTruncate (b : Nat) : Nat := b &&& statusAllBits

/-- `u8` truncation (Rust `as u8`). -/
def toU8 (n : Nat) : Nat := n % 256

/-- `u32` truncation at the API boundary (`addr: u32`). -/
def toU32 (n : Nat) : Nat := n % 4294967296

/-- The three address bytes placed after an opcode:
`(addr >> 16) as u8, (addr >> 8) as u8, addr as u8`. -/
def addrBytes (addr : Nat) : List Nat :=
  [toU8 (toU32 addr >>> 16), toU8 (toU32 addr >>> 8), toU8 (toU32 addr)]

/-- One segment of an SPI transaction, mirroring embedded-hal
`Operation::Write(bytes)` / `Operation::Read(buffer)` (for a read segment we
record the buffer length). -/
inductive SpiOp where
  | write : List Nat → SpiOp
  | read : Nat → SpiOp
deriving DecidableEq, Repr

/-- One bus transaction: the ordered segments issued under a single
chip-select assertion. -/
abbrev Transaction := List SpiOp

/-- Transport state: the response oracle and how many transactions have been
issued so far (the next transaction consumes slot `count`). -/
structure SpiState where
  oracle : Nat → Option (List Nat)
  count : Nat

/-- Result of running a driver computation: `ok`, the driver's single error
kind (`Error::Spi`, a wrapped transport failure), or fuel exhaustion
(the Rust loop would spin forever). -/
inductive Outcome (α : Type) where
  | ok : α → Outcome α
  | spiErr : Outcome α
  | diverge : Outcome α
deriving Repr

/-- Output of a driver computation: outcome, final transport state, bus
transactions issued (in order), and `delay_ms` durations awaited (in order). -/
structure StepOut (α : Type) where
  res : Outcome α
  state : SpiState
  txs : List Transaction
  delays : List Nat

/-- Driver computations: state passing plus emitted transactions/delays. -/
def FlashM (α : Type) : Type := SpiState → StepOut α

/-- Monadic return. -/
def pureF {α : Type} (a : α) : FlashM α := fun s => ⟨.ok a, s, [], []⟩

/-- Sequencing with Rust `?` semantics: a transport failure aborts the rest
of the operation; emitted transactions and delays accumulate in order. -/
def bindF {α β : Type} (m : FlashM α) (f : α → FlashM β) : FlashM β := fun s =>
  match m s with
  | ⟨.ok a, s1, t1, d1⟩ =>
    let o2 := f a s1
    ⟨o2.res, o2.state, t1 ++ o2.txs, d1 ++ o2.delays⟩
  | ⟨.spiErr, s1, t1, d1⟩ => ⟨.spiErr, s1, t1, d1⟩
  | ⟨.diverge, s1, t1, d1⟩ => ⟨.diverge, s1, t1, d1⟩

/-- Fuel exhaustion: the source's `while` loop never exits. -/
def divergeF {α : Type} : FlashM α := fun s => ⟨.diverge, s, [], []⟩

/-- `SpiDevice::transaction`: hand the segments to the transport; the oracle
decides success (inbound bytes) or transport failure. Either way the
transaction was issued on the bus and consumes one oracle slot. -/
def spiTransaction (ops : Transaction) : FlashM (List Nat) := fun s =>
  match s.oracle s.count with
  | none => ⟨.spiErr, ⟨s.oracle, s.count + 1⟩, [ops], []⟩
  | some bs => ⟨.ok bs, ⟨s.oracle, s.count + 1⟩, [ops], []⟩

/-- `DelayNs::delay_ms` (suspending engine only): record the suspension. -/
def delayMs (n : Nat) : FlashM Unit := fun s => ⟨.ok (), s, [], [n]⟩

end W25

namespace W25.Flash

/-! Blocking engine, from `impl ... FlashSpi` in src/comms.rs. -/

/-- `FlashSpi::command`: one transaction of a single outbound segment. -/
def command (bytes : List Nat) : FlashM Unit :=
  bindF (spiTransaction [.write bytes]) fun _ => pureF ()

/-- `FlashSpi::command_with_response`: outbound segment then inbound buffer. -/
def commandWithResponse (instruction : List Nat) (respLen : Nat) : FlashM (List Nat) :=
  bindF (spiTransaction [.write instruction, .read respLen]) fun bs => pureF bs

/-- `FlashSpi::read_status`: ReadStatus opcode, 2-byte response buffer,
decode `response[1]` with `from_bits_truncate`. -/
def readStatus : FlashM Nat :=
  bindF (commandWithResponse [opReadStatus] 2) fun bs =>
  pureF (fromBitsTruncate (bs.getD 1 0))

/-- `FlashSpi::write_enable`. -/
def writeEnable : FlashM Unit := command [opWriteEnable]

/-- `FlashSpi::is_busy`: `!(status & Status::BUSY).is_empty()`. -/
def isBusy : FlashM Bool :=
  bindF readStatus fun st => pureF (decide ¬(st &&& statusBUSY = 0))

/-- `FlashSpi::is_wel`: `!(status & Status::WEL).is_empty()`. -/
def isWel : FlashM Bool :=
  bindF readStatus fun st => pureF (decide ¬(st &&& statusWEL = 0))

/-- `FlashSpi::wait_done`: `while read_status()?.contains(BUSY) {}`,
with explicit fuel. -/
def waitDone : Nat → FlashM Unit
  | 0 => divergeF
  | fuel + 1 =>
    bindF readStatus fun st =>
    if st &&& statusBUSY = statusBUSY then waitDone fuel else pureF ()

/-- `FlashSpi::read`: wait not-busy, then one transaction
{Write [Read op, addr bytes], Read buf}; returns the filled buffer bytes. -/
def read (fuel : Nat) (addr : Nat) (buflen : Nat) : FlashM (List Nat) :=
  bindF (waitDone fuel) fun _ =>
  bindF (spiTransaction [.write (opRead :: addrBytes addr), .read buflen]) fun bs =>
  pureF ((List.range buflen).map fun i => toU8 (bs.getD i 0))

/-- `FlashSpi::sector_erase`: wait not-busy, write-enable, then the
SectorErase command with the three address bytes. -/
def sectorErase (fuel : Nat) (addr : Nat) : FlashM Unit :=
  bindF (waitDone fuel) fun _ =>
  bindF writeEnable fun _ =>
  command (opSectorErase :: addrBytes addr)

/-- `FlashSpi::page_program`: wait not-busy, write-enable, soft-check WEL
(on a clear WEL the `defmt::warn!` reads status once more via `?`), then one
transaction {Write [PageProg op, addr bytes], Write data}. -/
def pageProgram (fuel : Nat) (addr : Nat) (data : List Nat) : FlashM Unit :=
  bindF (waitDone fuel) fun _ =>
  bindF writeEnable fun _ =>
  bindF isWel fun w =>
  bindF (if w then pureF () else bindF readStatus fun _ => pureF ()) fun _ =>
  bindF (spiTransaction [.write (opPageProg :: addrBytes addr), .write data]) fun _ =>
  pureF ()

/-- `FlashSpi::chip_erase`: wait not-busy, write-enable, ChipErase command;
returns without waiting for completion. -/
def chipErase (fuel : Nat) : FlashM Unit :=
  bindF (waitDone fuel) fun _ =>
  bindF writeEnable fun _ =>
  command [opChipErase]

/-- `FlashSpi::software_reset`: wait not-busy, write-enable, EnableReset
command, wait not-busy again, Reset command. -/
def softwareReset (fuel : Nat) : FlashM Unit :=
  bindF (waitDone fuel) fun _ =>
  bindF writeEnable fun _ =>
  bindF (command [opEnableReset]) fun _ =>
  bindF (waitDone fuel) fun _ =>
  command [opReset]

/-- The polling loop of `FlashSpi::init`: read status until
`(status & (BUSY | WEL)).is_empty()`, retrying immediately; returns the
final (ready) status. -/
def initLoop : Nat → FlashM Nat
  | 0 => divergeF
  | fuel + 1 =>
    bindF readStatus fun st =>
    if st &&& (statusBUSY ||| statusWEL) = 0 then pureF st
    else initLoop fuel

end W25.Flash

namespace W25.AsyncFlash

/-! Suspending engine, from `impl ... AsyncFlashSpi` in src/async_comms.rs. -/

open W25

/-- `AsyncFlashSpi::command`. -/
def command (bytes : List Nat) : FlashM Unit :=
  bindF (spiTransaction [.write bytes]) fun _ => pureF ()

/-- `AsyncFlashSpi::command_with_response`. -/
def commandWithResponse (instruction : List Nat) (respLen : Nat) : FlashM (List Nat) :=
  bindF (spiTransaction [.write instruction, .read respLen]) fun bs => pureF bs

/-- `AsyncFlashSpi::read_status`. -/
def readStatus : FlashM Nat :=
  bindF (commandWithResponse [opReadStatus] 2) fun bs =>
  pureF (fromBitsTruncate (bs.getD 1 0))

/-- `AsyncFlashSpi::write_enable`. -/
def writeEnable : FlashM Unit := command [opWriteEnable]

/-- `AsyncFlashSpi::is_busy`. -/
def isBusy : FlashM Bool :=
  bindF readStatus fun st => pureF (decide ¬(st &&& statusBUSY = 0))

/-- `AsyncFlashSpi::is_wel`. -/
def isWel : FlashM Bool :=
  bindF readStatus fun st => pureF (decide ¬(st &&& statusWEL = 0))

/-- `AsyncFlashSpi::wait_done` (tight re-poll, no suspensions). -/
def waitDone : Nat → FlashM Unit
  | 0 => divergeF
  | fuel + 1 =>
    bindF readStatus fun st =>
    if st &&& statusBUSY = statusBUSY then waitDone fuel else pureF ()

/-- `AsyncFlashSpi::read`. -/
def read (fuel : Nat) (addr : Nat) (buflen : Nat) : FlashM (List Nat) :=
  bindF (waitDone fuel) fun _ =>
  bindF (spiTransaction [.write (opRead :: addrBytes addr), .read buflen]) fun bs =>
  pureF ((List.range buflen).map fun i => toU8 (bs.getD i 0))

/-- `AsyncFlashSpi::sector_erase`. -/
def sectorErase (fuel : Nat) (addr : Nat) : FlashM Unit :=
  bindF (waitDone fuel) fun _ =>
  bindF writeEnable fun _ =>
  command (opSectorErase :: addrBytes addr)

/-- `AsyncFlashSpi::page_program`. -/
def pageProgram (fuel : Nat) (addr : Nat) (data : List Nat) : FlashM Unit :=
  bindF (waitDone fuel) fun _ =>
  bindF writeEnable fun _ =>
  bindF isWel fun w =>
  bindF (if w then pureF () else bindF readStatus fun _ => pureF ()) fun _ =>
  bindF (spiTransaction [.write (opPageProg :: addrBytes addr), .write data]) fun _ =>
  pureF ()

/-- The `while is_busy()? { delay_ms(100) }` loop of
`AsyncFlashSpi::chip_erase`. -/
def busyLoop : Nat → FlashM Unit
  | 0 => divergeF
  | fuel + 1 =>
    bindF isBusy fun b =>
    if b then bindF (delayMs 100) fun _ => busyLoop fuel
    else pureF ()

/-- `AsyncFlashSpi::chip_erase`: poll busy with 100 ms suspensions,
write-enable, ChipErase command, poll again until not busy. -/
def chipErase (fuel : Nat) : FlashM Unit :=
  bindF (busyLoop fuel) fun _ =>
  bindF writeEnable fun _ =>
  bindF (command [opChipErase]) fun _ =>
  busyLoop fuel

/-- The polling loop of `AsyncFlashSpi::init`: read status until
`(status & BUSY).is_empty()`, suspending 10 ms after each non-ready
observation; returns the final (ready) status. -/
def initLoop : Nat → FlashM Nat
  | 0 => divergeF
  | fuel + 1 =>
    bindF readStatus fun st =>
    if st &&& statusBUSY = 0 then pureF st
    else bindF (delayMs 10) fun _ => initLoop fuel

end W25.AsyncFlash

namespace W25

/-! Trace vocabulary used by the theorems. -/

/-- The transaction issued by every status read. -/
def statusTx : Transaction := [.write [opReadStatus], .read 2]

/-- The WriteEnable transaction. -/
def weTx : Transaction := [.write [opWriteEnable]]

/-- The PageProgram transaction for a given address and payload. -/
def pageProgTx (addr : Nat) (data : List Nat) : Transaction :=
  [.write (opPageProg :: addrBytes addr), .write data]

/-- The SectorErase transaction for a given address. -/
def sectorEraseTx (addr : Nat) : Transaction :=
  [.write (opSectorErase :: addrBytes addr)]

/-- The first outbound byte of a transaction: the opcode the transport
observes at the start of the frame. -/
def txOpcode : Transaction → Option Nat
  | .write (b :: _) :: _ => some b
  | _ => none

/-- `weBeforeMut c tr = true` iff every transaction in `tr` whose opcode is
`c` is preceded (strictly) by some WriteEnable transaction. -/
def weBeforeMut (c : Nat) : List Transaction → Bool
  | [] => true
  | t :: rest =>
    if txOpcode t = some opWriteEnable then true
    else if txOpcode t = some c then false
    else weBeforeMut c rest

/-- Status decoded from oracle slot `i` as the driver's `read_status` does:
`from_bits_truncate` of byte 1 of the response (missing bytes read as 0). -/
def respStatus (oracle : Nat → Option (List Nat)) (i : Nat) : Nat :=
  fromBitsTruncate (((oracle i).getD []).getD 1 0)

/-- The `contains(BUSY)` test `wait_done` applies to oracle slot `i`. -/
def busyAt (oracle : Nat → Option (List Nat)) (i : Nat) : Bool :=
  respStatus oracle i &&& statusBUSY = statusBUSY

/-- Slot `i` of the oracle answers (no transport failure). -/
def okAt (oracle : Nat → Option (List Nat)) (i : Nat) : Prop :=
  (oracle i).isSome

instance {oracle : Nat → Option (List Nat)} {i : Nat} : Decidable (okAt oracle i) :=
  decidable_of_iff ((oracle i).isSome = true) Iff.rfl

end W25

namespace W25

/-! Evaluation lemmas for the monad and the primitives. -/

theorem bindF_ok {α β : Type} {m : FlashM α} {f : α → FlashM β} {s : SpiState}
    {a : α} {s1 : SpiState} {t1 : List Transaction} {d1 : List Nat}
    (h : m s = ⟨.ok a, s1, t1, d1⟩) :
    bindF m f s = ⟨(f a s1).res, (f a s1).state, t1 ++ (f a s1).txs, d1 ++ (f a s1).delays⟩ := by
  simp [bindF, h]

theorem bindF_err {α β : Type} {m : FlashM α} {f : α → FlashM β} {s : SpiState}
    {s1 : SpiState} {t1 : List Transaction} {d1 : List Nat}
    (h : m s = ⟨.spiErr, s1, t1, d1⟩) :
    bindF m f s = ⟨.spiErr, s1, t1, d1⟩ := by
  simp [bindF, h]

theorem bindF_div {α β : Type} {m : FlashM α} {f : α → FlashM β} {s : SpiState}
    {s1 : SpiState} {t1 : List Transaction} {d1 : List Nat}
    (h : m s = ⟨.diverge, s1, t1, d1⟩) :
    bindF m f s = ⟨.diverge, s1, t1, d1⟩ := by
  simp [bindF, h]

theorem spiTransaction_ok {s : SpiState} {bs : List Nat}
    (h : s.oracle s.count = some bs) (ops : Transaction) :
    spiTransaction ops s = ⟨.ok bs, ⟨s.oracle, s.count + 1⟩, [ops], []⟩ := by
  simp [spiTransaction, h]

theorem spiTransaction_err {s : SpiState}
    (h : s.oracle s.count = none) (ops : Transaction) :
    spiTransaction ops s = ⟨.spiErr, ⟨s.oracle, s.count + 1⟩, [ops], []⟩ := by
  simp [spiTransaction, h]

theorem readStatus_ok {s : SpiState} {bs : List Nat}
    (h : s.oracle s.count = some bs) :
    Flash.readStatus s =
      ⟨.ok (fromBitsTruncate (bs.getD 1 0)), ⟨s.oracle, s.count + 1⟩, [statusTx], []⟩ := by
  rw [Flash.readStatus, Flash.commandWithResponse,
    bindF_ok (bindF_ok (spiTransaction_ok h _))]
  simp [pureF, statusTx]

theorem readStatus_err {s : SpiState}
    (h : s.oracle s.count = none) :
    Flash.readStatus s = ⟨.spiErr, ⟨s.oracle, s.count + 1⟩, [statusTx], []⟩ := by
  rw [Flash.readStatus, Flash.commandWithResponse,
    bindF_err (bindF_err (spiTransaction_err h _))]
  rfl

theorem respStatus_some {oracle : Nat → Option (List Nat)} {i : Nat} {bs : List Nat}
    (h : oracle i = some bs) :
    respStatus oracle i = fromBitsTruncate (bs.getD 1 0) := by
  simp [respStatus, h]

theorem command_ok {s : SpiState} {bs : List Nat}
    (h : s.oracle s.count = some bs) (bytes : List Nat) :
    Flash.command bytes s = ⟨.ok (), ⟨s.oracle, s.count + 1⟩, [[.write bytes]], []⟩ := by
  rw [Flash.command, bindF_ok (spiTransaction_ok h _)]
  simp [pureF]

theorem command_err {s : SpiState}
    (h : s.oracle s.count = none) (bytes : List Nat) :
    Flash.command bytes s = ⟨.spiErr, ⟨s.oracle, s.count + 1⟩, [[.write bytes]], []⟩ := by
  rw [Flash.command, bindF_err (spiTransaction_err h _)]

theorem writeEnable_ok {s : SpiState} {bs : List Nat}
    (h : s.oracle s.count = some bs) :
    Flash.writeEnable s = ⟨.ok (), ⟨s.oracle, s.count + 1⟩, [weTx], []⟩ := by
  rw [Flash.writeEnable, command_ok h]
  rfl

theorem isWel_ok {s : SpiState} {bs : List Nat}
    (h : s.oracle s.count = some bs) :
    Flash.isWel s =
      ⟨.ok (decide ¬(fromBitsTruncate (bs.getD 1 0) &&& statusWEL = 0)),
        ⟨s.oracle, s.count + 1⟩, [statusTx], []⟩ := by
  rw [Flash.isWel, bindF_ok (readStatus_ok h)]
  simp [pureF]

theorem isBusy_ok {s : SpiState} {bs : List Nat}
    (h : s.oracle s.count = some bs) :
    Flash.isBusy s =
      ⟨.ok (decide ¬(fromBitsTruncate (bs.getD 1 0) &&& statusBUSY = 0)),
        ⟨s.oracle, s.count + 1⟩, [statusTx], []⟩ := by
  rw [Flash.isBusy, bindF_ok (readStatus_ok h)]
  simp [pureF]

end W25

namespace W25

/-! The suspending engine's read/program/erase paths coincide with the
blocking engine's (they never touch the delay capability). -/

theorem waitDone_eq : ∀ fuel, AsyncFlash.waitDone fuel = Flash.waitDone fuel := by
  intro fuel
  induction fuel with
  | zero => rfl
  | succ n ih =>
    show bindF AsyncFlash.readStatus _ = bindF Flash.readStatus _
    rw [show AsyncFlash.readStatus = Flash.readStatus from rfl]
    simp only [ih]

theorem read_eq (fuel addr buflen : Nat) :
    AsyncFlash.read fuel addr buflen = Flash.read fuel addr buflen := by
  rw [AsyncFlash.read, Flash.read, waitDone_eq]

theorem sectorErase_eq (fuel addr : Nat) :
    AsyncFlash.sectorErase fuel addr = Flash.sectorErase fuel addr := by
  rw [AsyncFlash.sectorErase, Flash.sectorErase, waitDone_eq]
  rfl

theorem pageProgram_eq (fuel addr : Nat) (data : List Nat) :
    AsyncFlash.pageProgram fuel addr data = Flash.pageProgram fuel addr data := by
  rw [AsyncFlash.pageProgram, Flash.pageProgram, waitDone_eq]
  rfl

/-! Which transactions a computation can put on the bus. -/

/-- Every transaction this computation ever issues satisfies `P`. -/
def OnlyTxs (P : Transaction → Prop) {α : Type} (m : FlashM α) : Prop :=
  ∀ (s : SpiState), ∀ t ∈ (m s).txs, P t

theorem onlyTxs_pureF {P : Transaction → Prop} {α : Type} (a : α) :
    OnlyTxs P (pureF a) := by
  intro s t ht
  simp [pureF] at ht

theorem onlyTxs_divergeF {P : Transaction → Prop} {α : Type} :
    OnlyTxs P (divergeF (α := α)) := by
  intro s t ht
  simp [divergeF] at ht

theorem onlyTxs_delayMs {P : Transaction → Prop} (n : Nat) :
    OnlyTxs P (delayMs n) := by
  intro s t ht
  simp [delayMs] at ht

theorem onlyTxs_spiTransaction {P : Transaction → Prop} {ops : Transaction}
    (h : P ops) : OnlyTxs P (spiTransaction ops) := by
  intro s t ht
  cases ho : s.oracle s.count <;> simp [spiTransaction, ho] at ht <;> exact ht ▸ h

theorem onlyTxs_bindF {P : Transaction → Prop} {α β : Type}
    {m : FlashM α} {f : α → FlashM β}
    (hm : OnlyTxs P m) (hf : ∀ a, OnlyTxs P (f a)) : OnlyTxs P (bindF m f) := by
  intro s t ht
  rcases h : m s with ⟨r, s1, t1, d1⟩
  have hmem : ∀ u ∈ t1, P u := by
    intro u hu
    have := hm s
    rw [h] at this
    exact this u hu
  cases r with
  | ok a =>
    rw [bindF_ok h] at ht
    simp only [StepOut.txs] at ht
    rcases List.mem_append.mp ht with h1 | h2
    · exact hmem t h1
    · exact hf a s1 t h2
  | spiErr =>
    rw [bindF_err h] at ht
    exact hmem t ht
  | diverge =>
    rw [bindF_div h] at ht
    exact hmem t ht

theorem onlyTxs_mono {P Q : Transaction → Prop} {α : Type} {m : FlashM α}
    (h : OnlyTxs P m) (hpq : ∀ t, P t → Q t) : OnlyTxs Q m := by
  intro s t ht
  exact hpq t (h s t ht)

theorem onlyTxs_ite {P : Transaction → Prop} {α : Type} (c : Prop) [Decidable c]
    {m1 m2 : FlashM α} (h1 : OnlyTxs P m1) (h2 : OnlyTxs P m2) :
    OnlyTxs P (if c then m1 else m2) := by
  by_cases hc : c
  · simpa [hc] using h1
  · simpa [hc] using h2

theorem onlyTxs_readStatus : OnlyTxs (· = statusTx) Flash.readStatus :=
  onlyTxs_bindF (onlyTxs_bindF (onlyTxs_spiTransaction rfl) fun _ => onlyTxs_pureF _)
    fun _ => onlyTxs_pureF _

theorem onlyTxs_isWel : OnlyTxs (· = statusTx) Flash.isWel :=
  onlyTxs_bindF onlyTxs_readStatus fun _ => onlyTxs_pureF _

theorem onlyTxs_isBusy : OnlyTxs (· = statusTx) Flash.isBusy :=
  onlyTxs_bindF onlyTxs_readStatus fun _ => onlyTxs_pureF _

theorem onlyTxs_waitDone (fuel : Nat) : OnlyTxs (· = statusTx) (Flash.waitDone fuel) := by
  induction fuel with
  | zero => exact onlyTxs_divergeF
  | succ n ih =>
    show OnlyTxs _ (bindF Flash.readStatus _)
    exact onlyTxs_bindF onlyTxs_readStatus fun st =>
      onlyTxs_ite _ ih (onlyTxs_pureF _)

end W25

namespace W25

theorem writeEnable_err {s : SpiState}
    (h : s.oracle s.count = none) :
    Flash.writeEnable s = ⟨.spiErr, ⟨s.oracle, s.count + 1⟩, [weTx], []⟩ := by
  rw [Flash.writeEnable, command_err h]
  rfl

/-! `weBeforeMut` bookkeeping. -/

theorem txOpcode_statusTx : txOpcode statusTx = some opReadStatus := rfl

theorem weBeforeMut_nil (c : Nat) : weBeforeMut c [] = true := rfl

theorem weBeforeMut_we_head (c : Nat) (more : List Transaction) :
    weBeforeMut c (weTx :: more) = true := by
  simp [weBeforeMut, weTx, txOpcode]

theorem weBeforeMut_status_skip (c : Nat) (hc : c ≠ opReadStatus)
    (l1 l2 : List Transaction) (h1 : ∀ t ∈ l1, t = statusTx) :
    weBeforeMut c (l1 ++ l2) = weBeforeMut c l2 := by
  induction l1 with
  | nil => simp
  | cons t rest ih =>
    have ht : t = statusTx := h1 t (by simp)
    subst ht
    rw [List.cons_append, weBeforeMut]
    have h5 : ¬ (opReadStatus = opWriteEnable) := by decide
    simp only [txOpcode_statusTx, Option.some.injEq]
    rw [if_neg h5, if_neg (fun he => hc he.symm)]
    exact ih fun u hu => h1 u (by simp [hu])

theorem weBeforeMut_bindF_we {β : Type} (c : Nat)
    (g : Unit → FlashM β) (s1 : SpiState) :
    weBeforeMut c (bindF Flash.writeEnable g s1).txs = true := by
  cases ho : s1.oracle s1.count with
  | none =>
    rw [bindF_err (writeEnable_err ho)]
    exact weBeforeMut_we_head c []
  | some bs =>
    rw [bindF_ok (writeEnable_ok ho)]
    exact weBeforeMut_we_head c _

/-- Common shape of `sector_erase` and `page_program`: wait not-busy, then
write-enable, then anything.  Whatever the transport answers, every mutating
opcode in the trace is preceded by a WriteEnable transaction. -/
theorem weBeforeMut_wd_we {β : Type} (c : Nat) (hc : c ≠ opReadStatus) (fuel : Nat)
    (g : Unit → Unit → FlashM β) (s : SpiState) :
    weBeforeMut c
      (bindF (Flash.waitDone fuel) (fun u => bindF Flash.writeEnable (g u)) s).txs
      = true := by
  rcases h : Flash.waitDone fuel s with ⟨r, s1, t1, d1⟩
  have ht1 : ∀ t ∈ t1, t = statusTx := by
    intro t ht
    have := onlyTxs_waitDone fuel s t
    rw [h] at this
    exact this ht
  cases r with
  | ok a =>
    rw [bindF_ok h]
    show weBeforeMut c (t1 ++ _) = true
    rw [weBeforeMut_status_skip c hc t1 _ ht1]
    exact weBeforeMut_bindF_we c (g a) s1
  | spiErr =>
    rw [bindF_err h]
    show weBeforeMut c t1 = true
    rw [← List.append_nil t1, weBeforeMut_status_skip c hc t1 [] ht1]
    rfl
  | diverge =>
    rw [bindF_div h]
    show weBeforeMut c t1 = true
    rw [← List.append_nil t1, weBeforeMut_status_skip c hc t1 [] ht1]
    rfl

end W25

namespace W25

/-- C1: For every call to `page_program(addr, data)` and `sector_erase(addr)`,
on both the blocking and suspending engines, the transport observes a
WriteEnable transaction (opcode 0x06) issued strictly before the transaction
carrying the mutating opcode (0x02 for PageProgram, 0x20 for SectorErase),
whatever the transport answers along the way. -/
theorem c1_write_enable_precedes_mutating_opcode
    (fuel addr : Nat) (data : List Nat) (s : SpiState) :
    weBeforeMut opPageProg (Flash.pageProgram fuel addr data s).txs = true ∧
    weBeforeMut opSectorErase (Flash.sectorErase fuel addr s).txs = true ∧
    weBeforeMut opPageProg (AsyncFlash.pageProgram fuel addr data s).txs = true ∧
    weBeforeMut opSectorErase (AsyncFlash.sectorErase fuel addr s).txs = true := by
  have hpp : weBeforeMut opPageProg (Flash.pageProgram fuel addr data s).txs = true := by
    rw [Flash.pageProgram]
    exact weBeforeMut_wd_we opPageProg (by decide) fuel _ s
  have hse : weBeforeMut opSectorErase (Flash.sectorErase fuel addr s).txs = true := by
    rw [Flash.sectorErase]
    exact weBeforeMut_wd_we opSectorErase (by decide) fuel _ s
  refine ⟨hpp, hse, ?_, ?_⟩
  · rw [pageProgram_eq]
    exact hpp
  · rw [sectorErase_eq]
    exact hse

end W25

namespace W25

theorem and_255_eq_mod (x : Nat) : x &&& 255 = x % 256 := by
  have h := Nat.and_pow_two_sub_one_eq_mod x 8
  simpa using h

theorem addrBytes_of_lt {addr : Nat} (h : addr < 4294967296) :
    addrBytes addr = [(addr >>> 16) &&& 255, (addr >>> 8) &&& 255, addr &&& 255] := by
  simp [addrBytes, toU8, toU32, Nat.mod_eq_of_lt h, and_255_eq_mod]

theorem onlyTxs_writeEnable : OnlyTxs (· = weTx) Flash.writeEnable :=
  onlyTxs_bindF (onlyTxs_spiTransaction rfl) fun _ => onlyTxs_pureF _

theorem onlyTxs_read (fuel addr buflen : Nat) :
    OnlyTxs (fun t => t = statusTx ∨ t = [.write (opRead :: addrBytes addr), .read buflen])
      (Flash.read fuel addr buflen) := by
  rw [Flash.read]
  exact onlyTxs_bindF (onlyTxs_mono (onlyTxs_waitDone fuel) fun t ht => Or.inl ht)
    fun _ => onlyTxs_bindF (onlyTxs_spiTransaction (Or.inr rfl)) fun _ => onlyTxs_pureF _

theorem onlyTxs_sectorErase (fuel addr : Nat) :
    OnlyTxs (fun t => t = statusTx ∨ t = weTx ∨ t = sectorEraseTx addr)
      (Flash.sectorErase fuel addr) := by
  rw [Flash.sectorErase]
  refine onlyTxs_bindF (onlyTxs_mono (onlyTxs_waitDone fuel) fun t ht => Or.inl ht)
    fun _ => onlyTxs_bindF (onlyTxs_mono onlyTxs_writeEnable fun t ht => Or.inr (Or.inl ht))
    fun _ => ?_
  exact onlyTxs_bindF (onlyTxs_spiTransaction (Or.inr (Or.inr rfl))) fun _ => onlyTxs_pureF _

theorem onlyTxs_pageProgram (fuel addr : Nat) (data : List Nat) :
    OnlyTxs (fun t => t = statusTx ∨ t = weTx ∨ t = pageProgTx addr data)
      (Flash.pageProgram fuel addr data) := by
  rw [Flash.pageProgram]
  refine onlyTxs_bindF (onlyTxs_mono (onlyTxs_waitDone fuel) fun t ht => Or.inl ht)
    fun _ => onlyTxs_bindF (onlyTxs_mono onlyTxs_writeEnable fun t ht => Or.inr (Or.inl ht))
    fun _ => onlyTxs_bindF (onlyTxs_mono onlyTxs_isWel fun t ht => Or.inl ht)
    fun w => onlyTxs_bindF ?_
    fun _ => onlyTxs_bindF (onlyTxs_spiTransaction (Or.inr (Or.inr rfl))) fun _ => onlyTxs_pureF _
  exact onlyTxs_ite _ (onlyTxs_pureF _)
    (onlyTxs_bindF (onlyTxs_mono onlyTxs_readStatus fun t ht => Or.inl ht)
      fun _ => onlyTxs_pureF _)

/-- C2: For every 32-bit address, the three address bytes on the bus after
the Read/SectorErase/PageProgram opcode are exactly
`(addr >> 16) & 0xFF, (addr >> 8) & 0xFF, addr & 0xFF`, big-endian,
on both engines; bits 24-31 of the address never reach the bus. -/
theorem c2_address_bytes_big_endian
    (fuel addr buflen : Nat) (data : List Nat) (s : SpiState)
    (h : addr < 4294967296) :
    (∀ t ∈ (Flash.read fuel addr buflen s).txs, txOpcode t = some opRead →
      t = [.write [opRead, (addr >>> 16) &&& 255, (addr >>> 8) &&& 255, addr &&& 255],
           .read buflen]) ∧
    (∀ t ∈ (Flash.sectorErase fuel addr s).txs, txOpcode t = some opSectorErase →
      t = [.write [opSectorErase, (addr >>> 16) &&& 255, (addr >>> 8) &&& 255, addr &&& 255]]) ∧
    (∀ t ∈ (Flash.pageProgram fuel addr data s).txs, txOpcode t = some opPageProg →
      t = [.write [opPageProg, (addr >>> 16) &&& 255, (addr >>> 8) &&& 255, addr &&& 255],
           .write data]) ∧
    (∀ t ∈ (AsyncFlash.read fuel addr buflen s).txs, txOpcode t = some opRead →
      t = [.write [opRead, (addr >>> 16) &&& 255, (addr >>> 8) &&& 255, addr &&& 255],
           .read buflen]) ∧
    (∀ t ∈ (AsyncFlash.sectorErase fuel addr s).txs, txOpcode t = some opSectorErase →
      t = [.write [opSectorErase, (addr >>> 16) &&& 255, (addr >>> 8) &&& 255, addr &&& 255]]) ∧
    (∀ t ∈ (AsyncFlash.pageProgram fuel addr data s).txs, txOpcode t = some opPageProg →
      t = [.write [opPageProg, (addr >>> 16) &&& 255, (addr >>> 8) &&& 255, addr &&& 255],
           .write data]) := by
  have hrd : ∀ t ∈ (Flash.read fuel addr buflen s).txs, txOpcode t = some opRead →
      t = [.write [opRead, (addr >>> 16) &&& 255, (addr >>> 8) &&& 255, addr &&& 255],
           .read buflen] := by
    intro t ht hop
    rcases onlyTxs_read fuel addr buflen s t ht with h1 | h2
    · subst h1
      simp [txOpcode_statusTx, opReadStatus, opRead] at hop
    · rw [h2, addrBytes_of_lt h]
  have hse : ∀ t ∈ (Flash.sectorErase fuel addr s).txs, txOpcode t = some opSectorErase →
      t = [.write [opSectorErase, (addr >>> 16) &&& 255, (addr >>> 8) &&& 255, addr &&& 255]] := by
    intro t ht hop
    rcases onlyTxs_sectorErase fuel addr s t ht with h1 | h2 | h3
    · subst h1
      simp [txOpcode_statusTx, opReadStatus, opSectorErase] at hop
    · subst h2
      simp [weTx, txOpcode, opWriteEnable, opSectorErase] at hop
    · rw [h3, sectorEraseTx, addrBytes_of_lt h]
  have hpp : ∀ t ∈ (Flash.pageProgram fuel addr data s).txs, txOpcode t = some opPageProg →
      t = [.write [opPageProg, (addr >>> 16) &&& 255, (addr >>> 8) &&& 255, addr &&& 255],
           .write data] := by
    intro t ht hop
    rcases onlyTxs_pageProgram fuel addr data s t ht with h1 | h2 | h3
    · subst h1
      simp [txOpcode_statusTx, opReadStatus, opPageProg] at hop
    · subst h2
      simp [weTx, txOpcode, opWriteEnable, opPageProg] at hop
    · rw [h3, pageProgTx, addrBytes_of_lt h]
  refine ⟨hrd, hse, hpp, ?_, ?_, ?_⟩
  · rw [read_eq]
    exact hrd
  · rw [sectorErase_eq]
    exact hse
  · rw [pageProgram_eq]
    exact hpp

end W25

namespace W25

theorem waitDone_ok (n : Nat) :
    ∀ (fuel : Nat) (s : SpiState), n < fuel →
    (∀ j < n, okAt s.oracle (s.count + j) ∧ busyAt s.oracle (s.count + j) = true) →
    okAt s.oracle (s.count + n) →
    busyAt s.oracle (s.count + n) = false →
    Flash.waitDone fuel s =
      ⟨.ok (), ⟨s.oracle, s.count + (n + 1)⟩, List.replicate (n + 1) statusTx, []⟩ := by
  induction n with
  | zero =>
    intro fuel s hf hb hok hnb
    obtain ⟨m, rfl⟩ : ∃ m, fuel = m + 1 := ⟨fuel - 1, by omega⟩
    rw [Nat.add_zero] at hok hnb
    obtain ⟨bs, hbs⟩ := Option.isSome_iff_exists.mp hok
    have hcond : ¬(fromBitsTruncate (bs.getD 1 0) &&& statusBUSY = statusBUSY) := by
      rw [busyAt, respStatus_some hbs] at hnb
      simpa using hnb
    show bindF Flash.readStatus _ s = _
    rw [bindF_ok (readStatus_ok hbs)]
    show StepOut.mk
      ((if fromBitsTruncate (bs.getD 1 0) &&& statusBUSY = statusBUSY
          then Flash.waitDone m else pureF ()) ⟨s.oracle, s.count + 1⟩).res _ _ _ = _
    rw [if_neg hcond]
    simp [pureF, List.replicate]
  | succ n ih =>
    intro fuel s hf hb hok hnb
    obtain ⟨m, rfl⟩ : ∃ m, fuel = m + 1 := ⟨fuel - 1, by omega⟩
    obtain ⟨h0ok, h0b⟩ := hb 0 (by omega)
    rw [Nat.add_zero] at h0ok h0b
    obtain ⟨bs, hbs⟩ := Option.isSome_iff_exists.mp h0ok
    have hcond : fromBitsTruncate (bs.getD 1 0) &&& statusBUSY = statusBUSY := by
      rw [busyAt, respStatus_some hbs] at h0b
      simpa using h0b
    show bindF Flash.readStatus _ s = _
    rw [bindF_ok (readStatus_ok hbs)]
    have ihm := ih m ⟨s.oracle, s.count + 1⟩ (by omega)
      (fun j hj => by
        have harith : s.count + 1 + j = s.count + (j + 1) := by omega
        show okAt s.oracle (s.count + 1 + j) ∧ busyAt s.oracle (s.count + 1 + j) = true
        rw [harith]
        exact hb (j + 1) (by omega))
      (by
        have harith : s.count + 1 + n = s.count + (n + 1) := by omega
        show okAt s.oracle (s.count + 1 + n)
        rw [harith]
        exact hok)
      (by
        have harith : s.count + 1 + n = s.count + (n + 1) := by omega
        show busyAt s.oracle (s.count + 1 + n) = false
        rw [harith]
        exact hnb)
    show StepOut.mk
      ((if fromBitsTruncate (bs.getD 1 0) &&& statusBUSY = statusBUSY
          then Flash.waitDone m else pureF ()) ⟨s.oracle, s.count + 1⟩).res _ _ _ = _
    rw [if_pos hcond, ihm]
    have harith : s.count + 1 + (n + 1) = s.count + (n + 1 + 1) := by omega
    simp [harith, List.replicate_succ]

end W25

namespace W25

theorem busy_decide_eq (st : Nat) :
    (decide ¬(st &&& statusBUSY = 0)) = decide (st &&& statusBUSY = statusBUSY) := by
  have h1 : st &&& statusBUSY ≤ statusBUSY := Nat.and_le_right
  rw [decide_eq_decide]
  have hB : statusBUSY = 1 := rfl
  rw [hB] at h1 ⊢
  omega

theorem busyLoop_ok (n : Nat) :
    ∀ (fuel : Nat) (s : SpiState), n < fuel →
    (∀ j < n, okAt s.oracle (s.count + j) ∧ busyAt s.oracle (s.count + j) = true) →
    okAt s.oracle (s.count + n) →
    busyAt s.oracle (s.count + n) = false →
    AsyncFlash.busyLoop fuel s =
      ⟨.ok (), ⟨s.oracle, s.count + (n + 1)⟩, List.replicate (n + 1) statusTx,
        List.replicate n 100⟩ := by
  induction n with
  | zero =>
    intro fuel s hf hb hok hnb
    obtain ⟨m, rfl⟩ : ∃ m, fuel = m + 1 := ⟨fuel - 1, by omega⟩
    rw [Nat.add_zero] at hok hnb
    obtain ⟨bs, hbs⟩ := Option.isSome_iff_exists.mp hok
    have hcond : (decide ¬(fromBitsTruncate (bs.getD 1 0) &&& statusBUSY = 0)) = false := by
      rw [busy_decide_eq]
      rw [busyAt, respStatus_some hbs] at hnb
      exact hnb
    show bindF AsyncFlash.isBusy _ s = _
    rw [show AsyncFlash.isBusy = Flash.isBusy from rfl, bindF_ok (isBusy_ok hbs)]
    show StepOut.mk
      ((if (decide ¬(fromBitsTruncate (bs.getD 1 0) &&& statusBUSY = 0)) = true
          then bindF (delayMs 100) fun _ => AsyncFlash.busyLoop m
          else pureF ()) ⟨s.oracle, s.count + 1⟩).res _ _ _ = _
    rw [if_neg (by rw [hcond]; exact Bool.false_ne_true)]
    simp [pureF, List.replicate]
  | succ n ih =>
    intro fuel s hf hb hok hnb
    obtain ⟨m, rfl⟩ : ∃ m, fuel = m + 1 := ⟨fuel - 1, by omega⟩
    obtain ⟨h0ok, h0b⟩ := hb 0 (by omega)
    rw [Nat.add_zero] at h0ok h0b
    obtain ⟨bs, hbs⟩ := Option.isSome_iff_exists.mp h0ok
    have hcond : (decide ¬(fromBitsTruncate (bs.getD 1 0) &&& statusBUSY = 0)) = true := by
      rw [busy_decide_eq]
      rw [busyAt, respStatus_some hbs] at h0b
      exact h0b
    show bindF AsyncFlash.isBusy _ s = _
    rw [show AsyncFlash.isBusy = Flash.isBusy from rfl, bindF_ok (isBusy_ok hbs)]
    have ihm := ih m ⟨s.oracle, s.count + 1⟩ (by omega)
      (fun j hj => by
        have harith : s.count + 1 + j = s.count + (j + 1) := by omega
        show okAt s.oracle (s.count + 1 + j) ∧ busyAt s.oracle (s.count + 1 + j) = true
        rw [harith]
        exact hb (j + 1) (by omega))
      (by
        have harith : s.count + 1 + n = s.count + (n + 1) := by omega
        show okAt s.oracle (s.count + 1 + n)
        rw [harith]
        exact hok)
      (by
        have harith : s.count + 1 + n = s.count + (n + 1) := by omega
        show busyAt s.oracle (s.count + 1 + n) = false
        rw [harith]
        exact hnb)
    show StepOut.mk
      ((if (decide ¬(fromBitsTruncate (bs.getD 1 0) &&& statusBUSY = 0)) = true
          then bindF (delayMs 100) fun _ => AsyncFlash.busyLoop m
          else pureF ()) ⟨s.oracle, s.count + 1⟩).res _ _ _ = _
    rw [if_pos hcond]
    rw [bindF_ok (show delayMs 100 ⟨s.oracle, s.count + 1⟩ =
      ⟨.ok (), ⟨s.oracle, s.count + 1⟩, [], [100]⟩ from rfl), ihm]
    have harith : s.count + 1 + (n + 1) = s.count + (n + 1 + 1) := by omega
    simp [harith, List.replicate_succ]

end W25

namespace W25

/-- The readiness guard of the blocking `init`:
`(status & (BUSY | WEL)).is_empty()` on oracle slot `i`. -/
def readyBlockAt (oracle : Nat → Option (List Nat)) (i : Nat) : Bool :=
  respStatus oracle i &&& (statusBUSY ||| statusWEL) = 0

/-- The readiness guard of the suspending `init`:
`(status & BUSY).is_empty()` on oracle slot `i`. -/
def readyAsyncAt (oracle : Nat → Option (List Nat)) (i : Nat) : Bool :=
  respStatus oracle i &&& statusBUSY = 0

theorem initLoop_ok (n : Nat) :
    ∀ (fuel : Nat) (s : SpiState), n < fuel →
    (∀ j < n, okAt s.oracle (s.count + j) ∧ readyBlockAt s.oracle (s.count + j) = false) →
    okAt s.oracle (s.count + n) →
    readyBlockAt s.oracle (s.count + n) = true →
    Flash.initLoop fuel s =
      ⟨.ok (respStatus s.oracle (s.count + n)), ⟨s.oracle, s.count + (n + 1)⟩,
        List.replicate (n + 1) statusTx, []⟩ := by
  induction n with
  | zero =>
    intro fuel s hf hb hok hrd
    obtain ⟨m, rfl⟩ : ∃ m, fuel = m + 1 := ⟨fuel - 1, by omega⟩
    rw [Nat.add_zero] at hok hrd
    obtain ⟨bs, hbs⟩ := Option.isSome_iff_exists.mp hok
    have hcond : fromBitsTruncate (bs.getD 1 0) &&& (statusBUSY ||| statusWEL) = 0 := by
      rw [readyBlockAt, respStatus_some hbs] at hrd
      simpa using hrd
    show bindF Flash.readStatus _ s = _
    rw [bindF_ok (readStatus_ok hbs)]
    show StepOut.mk
      ((if fromBitsTruncate (bs.getD 1 0) &&& (statusBUSY ||| statusWEL) = 0
          then pureF (fromBitsTruncate (bs.getD 1 0))
          else Flash.initLoop m) ⟨s.oracle, s.count + 1⟩).res _ _ _ = _
    rw [if_pos hcond]
    simp [pureF, List.replicate, respStatus_some hbs]
  | succ n ih =>
    intro fuel s hf hb hok hrd
    obtain ⟨m, rfl⟩ : ∃ m, fuel = m + 1 := ⟨fuel - 1, by omega⟩
    obtain ⟨h0ok, h0r⟩ := hb 0 (by omega)
    rw [Nat.add_zero] at h0ok h0r
    obtain ⟨bs, hbs⟩ := Option.isSome_iff_exists.mp h0ok
    have hcond : ¬(fromBitsTruncate (bs.getD 1 0) &&& (statusBUSY ||| statusWEL) = 0) := by
      rw [readyBlockAt, respStatus_some hbs] at h0r
      simpa using h0r
    show bindF Flash.readStatus _ s = _
    rw [bindF_ok (readStatus_ok hbs)]
    have ihm := ih m ⟨s.oracle, s.count + 1⟩ (by omega)
      (fun j hj => by
        have harith : s.count + 1 + j = s.count + (j + 1) := by omega
        show okAt s.oracle (s.count + 1 + j) ∧ readyBlockAt s.oracle (s.count + 1 + j) = false
        rw [harith]
        exact hb (j + 1) (by omega))
      (by
        have harith : s.count + 1 + n = s.count + (n + 1) := by omega
        show okAt s.oracle (s.count + 1 + n)
        rw [harith]
        exact hok)
      (by
        have harith : s.count + 1 + n = s.count + (n + 1) := by omega
        show readyBlockAt s.oracle (s.count + 1 + n) = true
        rw [harith]
        exact hrd)
    show StepOut.mk
      ((if fromBitsTruncate (bs.getD 1 0) &&& (statusBUSY ||| statusWEL) = 0
          then pureF (fromBitsTruncate (bs.getD 1 0))
          else Flash.initLoop m) ⟨s.oracle, s.count + 1⟩).res _ _ _ = _
    rw [if_neg hcond, ihm]
    have harith1 : s.count + 1 + n = s.count + (n + 1) := by omega
    have harith2 : s.count + 1 + (n + 1) = s.count + (n + 1 + 1) := by omega
    simp [harith1, harith2, List.replicate_succ]

theorem asyncInitLoop_ok (n : Nat) :
    ∀ (fuel : Nat) (s : SpiState), n < fuel →
    (∀ j < n, okAt s.oracle (s.count + j) ∧ readyAsyncAt s.oracle (s.count + j) = false) →
    okAt s.oracle (s.count + n) →
    readyAsyncAt s.oracle (s.count + n) = true →
    AsyncFlash.initLoop fuel s =
      ⟨.ok (respStatus s.oracle (s.count + n)), ⟨s.oracle, s.count + (n + 1)⟩,
        List.replicate (n + 1) statusTx, List.replicate n 10⟩ := by
  induction n with
  | zero =>
    intro fuel s hf hb hok hrd
    obtain ⟨m, rfl⟩ : ∃ m, fuel = m + 1 := ⟨fuel - 1, by omega⟩
    rw [Nat.add_zero] at hok hrd
    obtain ⟨bs, hbs⟩ := Option.isSome_iff_exists.mp hok
    have hcond : fromBitsTruncate (bs.getD 1 0) &&& statusBUSY = 0 := by
      rw [readyAsyncAt, respStatus_some hbs] at hrd
      simpa using hrd
    show bindF AsyncFlash.readStatus _ s = _
    rw [show AsyncFlash.readStatus = Flash.readStatus from rfl, bindF_ok (readStatus_ok hbs)]
    show StepOut.mk
      ((if fromBitsTruncate (bs.getD 1 0) &&& statusBUSY = 0
          then pureF (fromBitsTruncate (bs.getD 1 0))
          else bindF (delayMs 10) fun _ => AsyncFlash.initLoop m) ⟨s.oracle, s.count + 1⟩).res
        _ _ _ = _
    rw [if_pos hcond]
    simp [pureF, List.replicate, respStatus_some hbs]
  | succ n ih =>
    intro fuel s hf hb hok hrd
    obtain ⟨m, rfl⟩ : ∃ m, fuel = m + 1 := ⟨fuel - 1, by omega⟩
    obtain ⟨h0ok, h0r⟩ := hb 0 (by omega)
    rw [Nat.add_zero] at h0ok h0r
    obtain ⟨bs, hbs⟩ := Option.isSome_iff_exists.mp h0ok
    have hcond : ¬(fromBitsTruncate (bs.getD 1 0) &&& statusBUSY = 0) := by
      rw [readyAsyncAt, respStatus_some hbs] at h0r
      simpa using h0r
    show bindF AsyncFlash.readStatus _ s = _
    rw [show AsyncFlash.readStatus = Flash.readStatus from rfl, bindF_ok (readStatus_ok hbs)]
    have ihm := ih m ⟨s.oracle, s.count + 1⟩ (by omega)
      (fun j hj => by
        have harith : s.count + 1 + j = s.count + (j + 1) := by omega
        show okAt s.oracle (s.count + 1 + j) ∧ readyAsyncAt s.oracle (s.count + 1 + j) = false
        rw [harith]
        exact hb (j + 1) (by omega))
      (by
        have harith : s.count + 1 + n = s.count + (n + 1) := by omega
        show okAt s.oracle (s.count + 1 + n)
        rw [harith]
        exact hok)
      (by
        have harith : s.count + 1 + n = s.count + (n + 1) := by omega
        show readyAsyncAt s.oracle (s.count + 1 + n) = true
        rw [harith]
        exact hrd)
    show StepOut.mk
      ((if fromBitsTruncate (bs.getD 1 0) &&& statusBUSY = 0
          then pureF (fromBitsTruncate (bs.getD 1 0))
          else bindF (delayMs 10) fun _ => AsyncFlash.initLoop m) ⟨s.oracle, s.count + 1⟩).res
        _ _ _ = _
    rw [if_neg hcond]
    rw [bindF_ok (show delayMs 10 ⟨s.oracle, s.count + 1⟩ =
      ⟨.ok (), ⟨s.oracle, s.count + 1⟩, [], [10]⟩ from rfl), ihm]
    have harith1 : s.count + 1 + n = s.count + (n + 1) := by omega
    have harith2 : s.count + 1 + (n + 1) = s.count + (n + 1 + 1) := by omega
    simp [harith1, harith2, List.replicate_succ]

end W25

namespace W25

/-- C4: On the suspending engine, for a chip that is not busy before
`chip_erase` and reports Busy for exactly `K` consecutive status polls after
the ChipErase command, `chip_erase` awaits the timed-suspension primitive
exactly `K` times, 100 ms each, before returning Ok. -/
theorem c4_async_chip_erase_suspensions
    (K fuel : Nat) (s : SpiState)
    (hfuel : K < fuel)
    (h0ok : okAt s.oracle s.count)
    (h0nb : busyAt s.oracle s.count = false)
    (hwe : okAt s.oracle (s.count + 1))
    (hcmd : okAt s.oracle (s.count + 2))
    (hbusy : ∀ j < K, okAt s.oracle (s.count + 3 + j) ∧
      busyAt s.oracle (s.count + 3 + j) = true)
    (hdoneOk : okAt s.oracle (s.count + 3 + K))
    (hdoneNb : busyAt s.oracle (s.count + 3 + K) = false) :
    AsyncFlash.chipErase fuel s =
      ⟨.ok (), ⟨s.oracle, s.count + K + 4⟩,
        statusTx :: weTx :: [.write [opChipErase]] :: List.replicate (K + 1) statusTx,
        List.replicate K 100⟩ := by
  obtain ⟨bs1, hbs1⟩ := Option.isSome_iff_exists.mp hwe
  obtain ⟨bs2, hbs2⟩ := Option.isSome_iff_exists.mp hcmd
  have hloop1 := busyLoop_ok 0 fuel s (by omega)
    (by omega)
    (by rw [Nat.add_zero]; exact h0ok)
    (by rw [Nat.add_zero]; exact h0nb)
  have hloop2 := busyLoop_ok K fuel ⟨s.oracle, s.count + 3⟩ hfuel
    (fun j hj => hbusy j hj) hdoneOk hdoneNb
  show bindF (AsyncFlash.busyLoop fuel) _ s = _
  rw [bindF_ok hloop1]
  rw [show AsyncFlash.writeEnable = Flash.writeEnable from rfl]
  rw [bindF_ok (writeEnable_ok (show SpiState.oracle ⟨s.oracle, s.count + (0 + 1)⟩
    (SpiState.count ⟨s.oracle, s.count + (0 + 1)⟩) = some bs1 from hbs1))]
  rw [show AsyncFlash.command = Flash.command from rfl]
  rw [bindF_ok (command_ok (show SpiState.oracle ⟨s.oracle, s.count + (0 + 1) + 1⟩
    (SpiState.count ⟨s.oracle, s.count + (0 + 1) + 1⟩) = some bs2 from by
      show s.oracle (s.count + (0 + 1) + 1) = some bs2
      have harith : s.count + (0 + 1) + 1 = s.count + 2 := by omega
      rw [harith]
      exact hbs2) _)]
  rw [show (⟨s.oracle, s.count + (0 + 1) + 1 + 1⟩ : SpiState) = ⟨s.oracle, s.count + 3⟩ from by
    have harith : s.count + (0 + 1) + 1 + 1 = s.count + 3 := by omega
    rw [harith]]
  rw [hloop2]
  have harith : s.count + 3 + (K + 1) = s.count + K + 4 := by omega
  simp [harith, List.replicate_succ]

/-- C5: the blocking `init` polls status until both Busy and WriteEnableLatch
are clear, retrying immediately (no suspensions); the suspending `init` polls
until only Busy is clear, awaiting a 10 ms suspension after each non-ready
observation. -/
theorem c5_init_polling_guards_and_delays :
    (∀ (n fuel : Nat) (s : SpiState), n < fuel →
      (∀ j < n, okAt s.oracle (s.count + j) ∧ readyBlockAt s.oracle (s.count + j) = false) →
      okAt s.oracle (s.count + n) →
      readyBlockAt s.oracle (s.count + n) = true →
      Flash.initLoop fuel s =
        ⟨.ok (respStatus s.oracle (s.count + n)), ⟨s.oracle, s.count + (n + 1)⟩,
          List.replicate (n + 1) statusTx, []⟩) ∧
    (∀ (n fuel : Nat) (s : SpiState), n < fuel →
      (∀ j < n, okAt s.oracle (s.count + j) ∧ readyAsyncAt s.oracle (s.count + j) = false) →
      okAt s.oracle (s.count + n) →
      readyAsyncAt s.oracle (s.count + n) = true →
      AsyncFlash.initLoop fuel s =
        ⟨.ok (respStatus s.oracle (s.count + n)), ⟨s.oracle, s.count + (n + 1)⟩,
          List.replicate (n + 1) statusTx, List.replicate n 10⟩) :=
  ⟨fun n => initLoop_ok n, fun n => asyncInitLoop_ok n⟩

end W25

namespace W25

/-- Transport that always succeeds and always answers status 0x00. -/
def oracleAllZero : Nat → Option (List Nat) := fun _ => some [0, 0]

/-- Transport for the chip-erase scenario with `K = 2`: not busy before the
command, busy for exactly the two polls after it, then ready. -/
def c4Oracle : Nat → Option (List Nat) :=
  fun i => if 3 ≤ i ∧ i < 5 then some [0, 1] else some [0, 0]

/-- Transport that reports Busy and WEL set on the first poll, ready after. -/
def c5Oracle : Nat → Option (List Nat) :=
  fun i => if i = 0 then some [0, 3] else some [0, 0]

theorem c2_address_bytes_big_endian_witness :
    [SpiOp.write (opRead :: addrBytes 0xFF123456), SpiOp.read 2] =
      [.write [opRead, (0xFF123456 >>> 16) &&& 255, (0xFF123456 >>> 8) &&& 255,
        0xFF123456 &&& 255], .read 2] :=
  (c2_address_bytes_big_endian 1 0xFF123456 2 [] ⟨oracleAllZero, 0⟩ (by decide)).1
    [SpiOp.write (opRead :: addrBytes 0xFF123456), SpiOp.read 2] (by decide) (by decide)

theorem c4_async_chip_erase_suspensions_witness :
    AsyncFlash.chipErase 3 ⟨c4Oracle, 0⟩ =
      ⟨.ok (), ⟨c4Oracle, 6⟩,
        statusTx :: weTx :: [.write [opChipErase]] :: List.replicate 3 statusTx,
        List.replicate 2 100⟩ :=
  c4_async_chip_erase_suspensions 2 3 ⟨c4Oracle, 0⟩ (by decide) (by decide) (by decide)
    (by decide) (by decide) (by decide) (by decide) (by decide)

theorem c5_init_polling_guards_and_delays_witness :
    Flash.initLoop 2 ⟨c5Oracle, 0⟩ =
      ⟨.ok (respStatus c5Oracle 1), ⟨c5Oracle, 2⟩, List.replicate 2 statusTx, []⟩ ∧
    AsyncFlash.initLoop 2 ⟨c5Oracle, 0⟩ =
      ⟨.ok (respStatus c5Oracle 1), ⟨c5Oracle, 2⟩, List.replicate 2 statusTx,
        List.replicate 1 10⟩ :=
  ⟨c5_init_polling_guards_and_delays.1 1 2 ⟨c5Oracle, 0⟩ (by decide) (by decide)
      (by decide) (by decide),
    c5_init_polling_guards_and_delays.2 1 2 ⟨c5Oracle, 0⟩ (by decide) (by decide)
      (by decide) (by decide)⟩

end W25

namespace W25

/-- C3: evaluating `software_reset` on a transport that always answers
status 0x00 (chip never busy, every transfer succeeds): the driver issues a
ReadStatus transaction (its `wait_done` poll) between the EnableReset (0x66)
and Reset (0x99) instruction transactions, so the two instructions are not
sequenced back to back on the bus. -/
theorem c3_software_reset_polls_between_reset_pair :
    (Flash.softwareReset 1 ⟨oracleAllZero, 0⟩).txs =
      [statusTx, weTx, [.write [opEnableReset]], statusTx, [.write [opReset]]] ∧
    (Flash.softwareReset 1 ⟨oracleAllZero, 0⟩).res = .ok () := by
  exact ⟨rfl, rfl⟩

/-- The `is_wel` test applied to oracle slot `i`:
`!(status & WEL).is_empty()` of the decoded response. -/
def welAt (oracle : Nat → Option (List Nat)) (i : Nat) : Bool :=
  decide ¬(respStatus oracle i &&& statusWEL = 0)

theorem warnBranch_ok {s : SpiState} {bs : List Nat}
    (h : s.oracle s.count = some bs) :
    (bindF Flash.readStatus fun _ => pureF ()) s =
      ⟨.ok (), ⟨s.oracle, s.count + 1⟩, [statusTx], []⟩ := by
  rw [bindF_ok (readStatus_ok h)]
  rfl

/-- C6: in `page_program` on both engines, when the post-write-enable check
observes WEL clear, no error is surfaced: the extra status read for the log
message happens and the PageProgram transaction is issued regardless, the
call returning Ok. -/
theorem c6_wel_clear_is_soft
    (m fuel addr : Nat) (data : List Nat) (s : SpiState)
    (hm : m < fuel)
    (hpolls : ∀ j < m, okAt s.oracle (s.count + j) ∧ busyAt s.oracle (s.count + j) = true)
    (hmOk : okAt s.oracle (s.count + m))
    (hmNb : busyAt s.oracle (s.count + m) = false)
    (hweOk : okAt s.oracle (s.count + m + 1))
    (hwelOk : okAt s.oracle (s.count + m + 2))
    (hwelClear : welAt s.oracle (s.count + m + 2) = false)
    (hwarnOk : okAt s.oracle (s.count + m + 3))
    (hppOk : okAt s.oracle (s.count + m + 4)) :
    Flash.pageProgram fuel addr data s =
      ⟨.ok (), ⟨s.oracle, s.count + m + 5⟩,
        List.replicate (m + 1) statusTx ++ [weTx, statusTx, statusTx, pageProgTx addr data],
        []⟩ ∧
    AsyncFlash.pageProgram fuel addr data s =
      ⟨.ok (), ⟨s.oracle, s.count + m + 5⟩,
        List.replicate (m + 1) statusTx ++ [weTx, statusTx, statusTx, pageProgTx addr data],
        []⟩ := by
  obtain ⟨bs1, hbs1⟩ := Option.isSome_iff_exists.mp hweOk
  obtain ⟨bs2, hbs2⟩ := Option.isSome_iff_exists.mp hwelOk
  obtain ⟨bs3, hbs3⟩ := Option.isSome_iff_exists.mp hwarnOk
  obtain ⟨bs4, hbs4⟩ := Option.isSome_iff_exists.mp hppOk
  have hFlash : Flash.pageProgram fuel addr data s =
      ⟨.ok (), ⟨s.oracle, s.count + m + 5⟩,
        List.replicate (m + 1) statusTx ++ [weTx, statusTx, statusTx, pageProgTx addr data],
        []⟩ := by
    show bindF (Flash.waitDone fuel) _ s = _
    rw [bindF_ok (waitDone_ok m fuel s hm hpolls hmOk hmNb)]
    rw [bindF_ok (writeEnable_ok (s := ⟨s.oracle, s.count + (m + 1)⟩) (by
      show s.oracle (s.count + (m + 1)) = some bs1
      have harith : s.count + (m + 1) = s.count + m + 1 := by omega
      rw [harith]
      exact hbs1))]
    rw [bindF_ok (isWel_ok (s := ⟨s.oracle, s.count + (m + 1) + 1⟩) (by
      show s.oracle (s.count + (m + 1) + 1) = some bs2
      have harith : s.count + (m + 1) + 1 = s.count + m + 2 := by omega
      rw [harith]
      exact hbs2))]
    have hw : (decide ¬(fromBitsTruncate (bs2.getD 1 0) &&& statusWEL = 0)) = false := by
      rw [welAt, respStatus_some hbs2] at hwelClear
      exact hwelClear
    simp only [hw, Bool.false_eq_true, if_false]
    rw [bindF_ok (warnBranch_ok (s := ⟨s.oracle, s.count + (m + 1) + 1 + 1⟩)
      (by
        show s.oracle (s.count + (m + 1) + 1 + 1) = some bs3
        have harith : s.count + (m + 1) + 1 + 1 = s.count + m + 3 := by omega
        rw [harith]
        exact hbs3))]
    rw [bindF_ok (spiTransaction_ok (s := ⟨s.oracle, s.count + (m + 1) + 1 + 1 + 1⟩)
      (by
        show s.oracle (s.count + (m + 1) + 1 + 1 + 1) = some bs4
        have harith : s.count + (m + 1) + 1 + 1 + 1 = s.count + m + 4 := by omega
        rw [harith]
        exact hbs4) _)]
    have harith : s.count + (m + 1) + 1 + 1 + 1 + 1 = s.count + m + 5 := by omega
    simp [pureF, harith, pageProgTx, List.replicate_succ]
  refine ⟨hFlash, ?_⟩
  rw [pageProgram_eq]
  exact hFlash
end W25

namespace W25

theorem c6_wel_clear_is_soft_witness :
    Flash.pageProgram 1 7 [1, 2] ⟨oracleAllZero, 0⟩ =
      ⟨.ok (), ⟨oracleAllZero, 5⟩,
        List.replicate 1 statusTx ++ [weTx, statusTx, statusTx, pageProgTx 7 [1, 2]], []⟩ :=
  (c6_wel_clear_is_soft 0 1 7 [1, 2] ⟨oracleAllZero, 0⟩ (by decide) (by decide) (by decide)
    (by decide) (by decide) (by decide) (by decide) (by decide) (by decide)).1

set_option maxRecDepth 4000 in
theorem decode_bits_small :
    ∀ b < 256, (decide ¬(fromBitsTruncate b &&& statusBUSY = 0)) = b.testBit 0 ∧
      (decide ¬(fromBitsTruncate b &&& statusWEL = 0)) = b.testBit 1 ∧
      fromBitsTruncate b = b &&& 159 := by
  decide

/-- C7: status decoding is total and truncating: for each of the 256 byte
values the decode keeps exactly the defined bits (`byte & 0x9F`, bits 5-6
dropped), `read_status` succeeds with that value whenever the transport
answers, `is_busy` is bit 0 of the byte and `is_wel` is bit 1. -/
theorem c7_status_decode_total_truncating
    (b x : Nat) (s : SpiState)
    (hb : b < 256)
    (hres : s.oracle s.count = some [x, b]) :
    fromBitsTruncate b = b &&& 0x9F ∧
    (Flash.readStatus s).res = .ok (b &&& 0x9F) ∧
    (Flash.isBusy s).res = .ok (b.testBit 0) ∧
    (Flash.isWel s).res = .ok (b.testBit 1) := by
  obtain ⟨hbusy, hwel, hmask⟩ := decode_bits_small b hb
  have hgetD : ([x, b].getD 1 0) = b := rfl
  refine ⟨hmask, ?_, ?_, ?_⟩
  · rw [readStatus_ok hres]
    dsimp only
    rw [hgetD, hmask]
  · rw [isBusy_ok hres]
    dsimp only
    rw [hgetD, hbusy]
  · rw [isWel_ok hres]
    dsimp only
    rw [hgetD, hwel]

/-- Transport that always succeeds and answers status 0xFF. -/
def oracleFF : Nat → Option (List Nat) := fun _ => some [0, 255]

theorem c7_status_decode_total_truncating_witness :
    fromBitsTruncate 255 = 255 &&& 0x9F ∧
    (Flash.readStatus ⟨oracleFF, 0⟩).res = .ok (255 &&& 0x9F) ∧
    (Flash.isBusy ⟨oracleFF, 0⟩).res = .ok ((255 : Nat).testBit 0) ∧
    (Flash.isWel ⟨oracleFF, 0⟩).res = .ok ((255 : Nat).testBit 1) :=
  c7_status_decode_total_truncating 255 0 ⟨oracleFF, 0⟩ (by decide) rfl

/-- C8: on `read`, `sector_erase` and `page_program` the suspending engine is
behaviorally identical to the blocking engine: same bus transactions, same
suspensions (none), same final transport state and same result, for every
argument and every transport behavior. -/
theorem c8_engines_behaviorally_identical
    (fuel addr buflen : Nat) (data : List Nat) (s : SpiState) :
    AsyncFlash.read fuel addr buflen s = Flash.read fuel addr buflen s ∧
    AsyncFlash.sectorErase fuel addr s = Flash.sectorErase fuel addr s ∧
    AsyncFlash.pageProgram fuel addr data s = Flash.pageProgram fuel addr data s := by
  rw [read_eq, sectorErase_eq, pageProgram_eq]
  exact ⟨rfl, rfl, rfl⟩

end W25

namespace W25

/-- Discipline every driver computation obeys with respect to the transport:
the oracle is untouched, each issued transaction consumes exactly one fresh
oracle slot (no retry or re-issue), every transaction before the last one
succeeded (a failure is never followed by further transactions), and the
computation ends in the driver's single error kind (`Error::Spi`) exactly
when its last issued transaction hit a transport failure. -/
def CleanSteps {α : Type} (m : FlashM α) : Prop :=
  ∀ s : SpiState,
    (m s).state.oracle = s.oracle ∧
    (m s).state.count = s.count + (m s).txs.length ∧
    (∀ j, j + 1 < (m s).txs.length → s.oracle (s.count + j) ≠ none) ∧
    ((m s).res = .spiErr ↔
      (m s).txs ≠ [] ∧ s.oracle (s.count + ((m s).txs.length - 1)) = none)

theorem cleanSteps_pureF {α : Type} (a : α) : CleanSteps (pureF a) := by
  intro s
  refine ⟨rfl, by simp [pureF], by simp [pureF], ?_⟩
  simp [pureF]

theorem cleanSteps_divergeF {α : Type} : CleanSteps (divergeF (α := α)) := by
  intro s
  refine ⟨rfl, by simp [divergeF], by simp [divergeF], ?_⟩
  simp [divergeF]

theorem cleanSteps_delayMs (n : Nat) : CleanSteps (delayMs n) := by
  intro s
  refine ⟨rfl, by simp [delayMs], by simp [delayMs], ?_⟩
  simp [delayMs]

theorem cleanSteps_spiTransaction (ops : Transaction) : CleanSteps (spiTransaction ops) := by
  intro s
  cases h : s.oracle s.count with
  | none =>
    rw [spiTransaction_err h]
    refine ⟨rfl, rfl, by intro j hj; simp at hj, ?_⟩
    simpa using h
  | some bs =>
    rw [spiTransaction_ok h]
    refine ⟨rfl, rfl, by intro j hj; simp at hj, ?_⟩
    simp [h]

theorem cleanSteps_ite {α : Type} (c : Prop) [Decidable c] {m1 m2 : FlashM α}
    (h1 : CleanSteps m1) (h2 : CleanSteps m2) : CleanSteps (if c then m1 else m2) := by
  by_cases hc : c
  · simpa [hc] using h1
  · simpa [hc] using h2

theorem cleanSteps_bindF {α β : Type} {m : FlashM α} {f : α → FlashM β}
    (hm : CleanSteps m) (hf : ∀ a, CleanSteps (f a)) : CleanSteps (bindF m f) := by
  intro s
  have hm' := hm s
  rcases h : m s with ⟨r, s1, t1, d1⟩
  rw [h] at hm'
  obtain ⟨hmo, hmc, hm3, hm4⟩ := hm'
  dsimp only at hmo hmc hm3 hm4
  cases r with
  | ok a =>
    have hf' := hf a s1
    obtain ⟨hfo, hfc, hf3, hf4⟩ := hf'
    have hmlast : t1 ≠ [] → s.oracle (s.count + (t1.length - 1)) ≠ none := by
      intro hne hnone
      exact (by simp : ¬(Outcome.ok a = Outcome.spiErr)) (hm4.mpr ⟨hne, hnone⟩)
    rw [bindF_ok h]
    dsimp only
    refine ⟨by rw [hfo, hmo], ?_, ?_, ?_⟩
    · rw [hfc, hmc]
      simp [List.length_append]
      omega
    · intro j hj
      rw [List.length_append] at hj
      rcases Nat.lt_trichotomy (j + 1) t1.length with hlt | heq | hgt
      · exact hm3 j hlt
      · have hne : t1 ≠ [] := by
          intro hnil
          rw [hnil] at heq
          simp at heq
        have : t1.length - 1 = j := by omega
        rw [← this]
        exact hmlast hne
      · have hj' : (j - t1.length) + 1 < (f a s1).txs.length := by omega
        have := hf3 (j - t1.length) hj'
        rw [hmo, hmc] at this
        have harith : s.count + t1.length + (j - t1.length) = s.count + j := by omega
        rw [harith] at this
        exact this
    · rw [hf4, hmo, hmc]
      constructor
      · rintro ⟨hne, hnone⟩
        have hlen : 1 ≤ (f a s1).txs.length := List.length_pos.mpr hne
        refine ⟨by simp [hne], ?_⟩
        have harith : s.count + t1.length + ((f a s1).txs.length - 1) =
            s.count + ((t1 ++ (f a s1).txs).length - 1) := by
          simp [List.length_append]
          omega
        rw [← harith]
        exact hnone
      · rintro ⟨hne, hnone⟩
        by_cases hfe : (f a s1).txs = []
        · exfalso
          rw [hfe] at hne hnone
          simp at hne hnone
          have hne1 : t1 ≠ [] := by
            intro hnil
            rw [hnil] at hne
            exact hne rfl
          exact hmlast hne1 hnone
        · have hlen : 1 ≤ (f a s1).txs.length := List.length_pos.mpr hfe
          refine ⟨hfe, ?_⟩
          have harith : s.count + t1.length + ((f a s1).txs.length - 1) =
              s.count + ((t1 ++ (f a s1).txs).length - 1) := by
            simp [List.length_append]
            omega
          rw [harith]
          exact hnone
  | spiErr =>
    rw [bindF_err h]
    refine ⟨hmo, hmc, hm3, ?_⟩
    dsimp only
    exact ⟨fun _ => hm4.mp rfl, fun _ => rfl⟩
  | diverge =>
    rw [bindF_div h]
    refine ⟨hmo, hmc, hm3, ?_⟩
    dsimp only
    constructor
    · intro hcon
      exact absurd hcon (by simp)
    · intro hrhs
      exact absurd (hm4.mpr hrhs) (by simp)

end W25

namespace W25

theorem cleanSteps_command (bytes : List Nat) : CleanSteps (Flash.command bytes) :=
  cleanSteps_bindF (cleanSteps_spiTransaction _) fun _ => cleanSteps_pureF _

theorem cleanSteps_readStatus : CleanSteps Flash.readStatus :=
  cleanSteps_bindF
    (cleanSteps_bindF (cleanSteps_spiTransaction _) fun _ => cleanSteps_pureF _)
    fun _ => cleanSteps_pureF _

theorem cleanSteps_writeEnable : CleanSteps Flash.writeEnable :=
  cleanSteps_command _

theorem cleanSteps_isWel : CleanSteps Flash.isWel :=
  cleanSteps_bindF cleanSteps_readStatus fun _ => cleanSteps_pureF _

theorem cleanSteps_isBusy : CleanSteps Flash.isBusy :=
  cleanSteps_bindF cleanSteps_readStatus fun _ => cleanSteps_pureF _

theorem cleanSteps_waitDone (fuel : Nat) : CleanSteps (Flash.waitDone fuel) := by
  induction fuel with
  | zero => exact cleanSteps_divergeF
  | succ n ih =>
    show CleanSteps (bindF Flash.readStatus _)
    exact cleanSteps_bindF cleanSteps_readStatus fun st =>
      cleanSteps_ite _ ih (cleanSteps_pureF _)

theorem cleanSteps_flashRead (fuel addr buflen : Nat) :
    CleanSteps (Flash.read fuel addr buflen) := by
  rw [Flash.read]
  exact cleanSteps_bindF (cleanSteps_waitDone fuel) fun _ =>
    cleanSteps_bindF (cleanSteps_spiTransaction _) fun _ => cleanSteps_pureF _

theorem cleanSteps_flashSectorErase (fuel addr : Nat) :
    CleanSteps (Flash.sectorErase fuel addr) := by
  rw [Flash.sectorErase]
  exact cleanSteps_bindF (cleanSteps_waitDone fuel) fun _ =>
    cleanSteps_bindF cleanSteps_writeEnable fun _ => cleanSteps_command _

theorem cleanSteps_flashPageProgram (fuel addr : Nat) (data : List Nat) :
    CleanSteps (Flash.pageProgram fuel addr data) := by
  rw [Flash.pageProgram]
  refine cleanSteps_bindF (cleanSteps_waitDone fuel) fun _ =>
    cleanSteps_bindF cleanSteps_writeEnable fun _ =>
    cleanSteps_bindF cleanSteps_isWel fun w =>
    cleanSteps_bindF ?_ fun _ =>
    cleanSteps_bindF (cleanSteps_spiTransaction _) fun _ => cleanSteps_pureF _
  exact cleanSteps_ite _ (cleanSteps_pureF _)
    (cleanSteps_bindF cleanSteps_readStatus fun _ => cleanSteps_pureF _)

theorem cleanSteps_flashChipErase (fuel : Nat) : CleanSteps (Flash.chipErase fuel) := by
  rw [Flash.chipErase]
  exact cleanSteps_bindF (cleanSteps_waitDone fuel) fun _ =>
    cleanSteps_bindF cleanSteps_writeEnable fun _ => cleanSteps_command _

theorem cleanSteps_flashSoftwareReset (fuel : Nat) :
    CleanSteps (Flash.softwareReset fuel) := by
  rw [Flash.softwareReset]
  exact cleanSteps_bindF (cleanSteps_waitDone fuel) fun _ =>
    cleanSteps_bindF cleanSteps_writeEnable fun _ =>
    cleanSteps_bindF (cleanSteps_command _) fun _ =>
    cleanSteps_bindF (cleanSteps_waitDone fuel) fun _ => cleanSteps_command _

theorem cleanSteps_flashInitLoop (fuel : Nat) : CleanSteps (Flash.initLoop fuel) := by
  induction fuel with
  | zero => exact cleanSteps_divergeF
  | succ n ih =>
    show CleanSteps (bindF Flash.readStatus _)
    exact cleanSteps_bindF cleanSteps_readStatus fun st =>
      cleanSteps_ite _ (cleanSteps_pureF _) ih

theorem cleanSteps_busyLoop (fuel : Nat) : CleanSteps (AsyncFlash.busyLoop fuel) := by
  induction fuel with
  | zero => exact cleanSteps_divergeF
  | succ n ih =>
    show CleanSteps (bindF AsyncFlash.isBusy _)
    rw [show AsyncFlash.isBusy = Flash.isBusy from rfl]
    exact cleanSteps_bindF cleanSteps_isBusy fun b =>
      cleanSteps_ite _ (cleanSteps_bindF (cleanSteps_delayMs _) fun _ => ih)
        (cleanSteps_pureF _)

theorem cleanSteps_asyncChipErase (fuel : Nat) : CleanSteps (AsyncFlash.chipErase fuel) := by
  rw [AsyncFlash.chipErase]
  rw [show AsyncFlash.writeEnable = Flash.writeEnable from rfl,
    show AsyncFlash.command = Flash.command from rfl]
  exact cleanSteps_bindF (cleanSteps_busyLoop fuel) fun _ =>
    cleanSteps_bindF cleanSteps_writeEnable fun _ =>
    cleanSteps_bindF (cleanSteps_command _) fun _ => cleanSteps_busyLoop fuel

theorem cleanSteps_asyncInitLoop (fuel : Nat) : CleanSteps (AsyncFlash.initLoop fuel) := by
  induction fuel with
  | zero => exact cleanSteps_divergeF
  | succ n ih =>
    show CleanSteps (bindF AsyncFlash.readStatus _)
    rw [show AsyncFlash.readStatus = Flash.readStatus from rfl]
    exact cleanSteps_bindF cleanSteps_readStatus fun st =>
      cleanSteps_ite _ (cleanSteps_pureF _)
        (cleanSteps_bindF (cleanSteps_delayMs _) fun _ => ih)

/-- C9: every operation, on both engines, can fail only as a wrapped
transport failure, and propagates it immediately: the failing transaction is
the last one issued (all earlier ones succeeded, nothing is issued after it),
and each transaction consumes one fresh transport slot (no retry, no
re-issue). -/
theorem c9_single_error_kind_immediate_abort
    (fuel addr buflen : Nat) (data : List Nat) :
    CleanSteps (Flash.read fuel addr buflen) ∧
    CleanSteps (Flash.sectorErase fuel addr) ∧
    CleanSteps (Flash.pageProgram fuel addr data) ∧
    CleanSteps (Flash.chipErase fuel) ∧
    CleanSteps (Flash.softwareReset fuel) ∧
    CleanSteps (Flash.initLoop fuel) ∧
    CleanSteps (AsyncFlash.read fuel addr buflen) ∧
    CleanSteps (AsyncFlash.sectorErase fuel addr) ∧
    CleanSteps (AsyncFlash.pageProgram fuel addr data) ∧
    CleanSteps (AsyncFlash.chipErase fuel) ∧
    CleanSteps (AsyncFlash.initLoop fuel) := by
  refine ⟨cleanSteps_flashRead fuel addr buflen, cleanSteps_flashSectorErase fuel addr,
    cleanSteps_flashPageProgram fuel addr data, cleanSteps_flashChipErase fuel,
    cleanSteps_flashSoftwareReset fuel, cleanSteps_flashInitLoop fuel, ?_, ?_, ?_,
    cleanSteps_asyncChipErase fuel, cleanSteps_asyncInitLoop fuel⟩
  · rw [read_eq]
    exact cleanSteps_flashRead fuel addr buflen
  · rw [sectorErase_eq]
    exact cleanSteps_flashSectorErase fuel addr
  · rw [pageProgram_eq]
    exact cleanSteps_flashPageProgram fuel addr data

/-- Transport that fails every transaction. -/
def oracleNone : Nat → Option (List Nat) := fun _ => none

theorem c9_single_error_kind_immediate_abort_witness :
    (Flash.read 1 0 0 ⟨oracleNone, 0⟩).txs ≠ [] ∧
    oracleNone (0 + ((Flash.read 1 0 0 ⟨oracleNone, 0⟩).txs.length - 1)) = none :=
  ((c9_single_error_kind_immediate_abort 1 0 0 []).1 ⟨oracleNone, 0⟩).2.2.2.mp rfl

end W25

namespace W25

theorem isWel_err {s : SpiState}
    (h : s.oracle s.count = none) :
    Flash.isWel s = ⟨.spiErr, ⟨s.oracle, s.count + 1⟩, [statusTx], []⟩ := by
  rw [Flash.isWel, bindF_err (readStatus_err h)]

theorem warnBranch_err {s : SpiState}
    (h : s.oracle s.count = none) :
    (bindF Flash.readStatus fun _ => pureF ()) s =
      ⟨.spiErr, ⟨s.oracle, s.count + 1⟩, [statusTx], []⟩ := by
  rw [bindF_err (readStatus_err h)]

/-- C10: in `page_program` on both engines, a transport failure of the
status read behind the write-enable-latch check, or of the additional status
read taken for the log message when that check observes WEL clear, is
returned as the operation's error and the PageProgram transaction is never
issued. -/
theorem c10_pageProgram_wel_check_read_failure_aborts
    (m fuel addr : Nat) (data : List Nat) (s : SpiState)
    (hm : m < fuel)
    (hpolls : ∀ j < m, okAt s.oracle (s.count + j) ∧ busyAt s.oracle (s.count + j) = true)
    (hmOk : okAt s.oracle (s.count + m))
    (hmNb : busyAt s.oracle (s.count + m) = false)
    (hweOk : okAt s.oracle (s.count + m + 1)) :
    (s.oracle (s.count + m + 2) = none →
      Flash.pageProgram fuel addr data s =
        ⟨.spiErr, ⟨s.oracle, s.count + m + 3⟩,
          List.replicate (m + 1) statusTx ++ [weTx, statusTx], []⟩ ∧
      AsyncFlash.pageProgram fuel addr data s =
        ⟨.spiErr, ⟨s.oracle, s.count + m + 3⟩,
          List.replicate (m + 1) statusTx ++ [weTx, statusTx], []⟩ ∧
      (∀ t ∈ (Flash.pageProgram fuel addr data s).txs, txOpcode t ≠ some opPageProg)) ∧
    (okAt s.oracle (s.count + m + 2) → welAt s.oracle (s.count + m + 2) = false →
      s.oracle (s.count + m + 3) = none →
      Flash.pageProgram fuel addr data s =
        ⟨.spiErr, ⟨s.oracle, s.count + m + 4⟩,
          List.replicate (m + 1) statusTx ++ [weTx, statusTx, statusTx], []⟩ ∧
      AsyncFlash.pageProgram fuel addr data s =
        ⟨.spiErr, ⟨s.oracle, s.count + m + 4⟩,
          List.replicate (m + 1) statusTx ++ [weTx, statusTx, statusTx], []⟩ ∧
      (∀ t ∈ (Flash.pageProgram fuel addr data s).txs, txOpcode t ≠ some opPageProg)) := by
  obtain ⟨bs1, hbs1⟩ := Option.isSome_iff_exists.mp hweOk
  constructor
  · intro hfail
    have hFlash : Flash.pageProgram fuel addr data s =
        ⟨.spiErr, ⟨s.oracle, s.count + m + 3⟩,
          List.replicate (m + 1) statusTx ++ [weTx, statusTx], []⟩ := by
      show bindF (Flash.waitDone fuel) _ s = _
      rw [bindF_ok (waitDone_ok m fuel s hm hpolls hmOk hmNb)]
      rw [bindF_ok (writeEnable_ok (s := ⟨s.oracle, s.count + (m + 1)⟩) (by
        show s.oracle (s.count + (m + 1)) = some bs1
        have harith : s.count + (m + 1) = s.count + m + 1 := by omega
        rw [harith]
        exact hbs1))]
      rw [bindF_err (isWel_err (s := ⟨s.oracle, s.count + (m + 1) + 1⟩) (by
        show s.oracle (s.count + (m + 1) + 1) = none
        have harith : s.count + (m + 1) + 1 = s.count + m + 2 := by omega
        rw [harith]
        exact hfail))]
      have harith : s.count + (m + 1) + 1 + 1 = s.count + m + 3 := by omega
      simp [harith, List.replicate_succ]
    refine ⟨hFlash, by rw [pageProgram_eq]; exact hFlash, ?_⟩
    rw [hFlash]
    intro t ht
    dsimp only at ht
    rw [List.mem_append, List.mem_replicate] at ht
    rcases ht with ⟨-, rfl⟩ | ht
    · decide
    · simp only [List.mem_cons, List.mem_singleton] at ht
      rcases ht with rfl | rfl | h
      · decide
      · decide
      · simp at h
  · intro hwelOk hwelClear hfail
    obtain ⟨bs2, hbs2⟩ := Option.isSome_iff_exists.mp hwelOk
    have hFlash : Flash.pageProgram fuel addr data s =
        ⟨.spiErr, ⟨s.oracle, s.count + m + 4⟩,
          List.replicate (m + 1) statusTx ++ [weTx, statusTx, statusTx], []⟩ := by
      show bindF (Flash.waitDone fuel) _ s = _
      rw [bindF_ok (waitDone_ok m fuel s hm hpolls hmOk hmNb)]
      rw [bindF_ok (writeEnable_ok (s := ⟨s.oracle, s.count + (m + 1)⟩) (by
        show s.oracle (s.count + (m + 1)) = some bs1
        have harith : s.count + (m + 1) = s.count + m + 1 := by omega
        rw [harith]
        exact hbs1))]
      rw [bindF_ok (isWel_ok (s := ⟨s.oracle, s.count + (m + 1) + 1⟩) (by
        show s.oracle (s.count + (m + 1) + 1) = some bs2
        have harith : s.count + (m + 1) + 1 = s.count + m + 2 := by omega
        rw [harith]
        exact hbs2))]
      have hw : (decide ¬(fromBitsTruncate (bs2.getD 1 0) &&& statusWEL = 0)) = false := by
        rw [welAt, respStatus_some hbs2] at hwelClear
        exact hwelClear
      simp only [hw, Bool.false_eq_true, if_false]
      rw [bindF_err (warnBranch_err (s := ⟨s.oracle, s.count + (m + 1) + 1 + 1⟩) (by
        show s.oracle (s.count + (m + 1) + 1 + 1) = none
        have harith : s.count + (m + 1) + 1 + 1 = s.count + m + 3 := by omega
        rw [harith]
        exact hfail))]
      have harith : s.count + (m + 1) + 1 + 1 + 1 = s.count + m + 4 := by omega
      simp [harith, List.replicate_succ]
    refine ⟨hFlash, by rw [pageProgram_eq]; exact hFlash, ?_⟩
    rw [hFlash]
    intro t ht
    dsimp only at ht
    rw [List.mem_append, List.mem_replicate] at ht
    rcases ht with ⟨-, rfl⟩ | ht
    · decide
    · simp only [List.mem_cons, List.mem_singleton] at ht
      rcases ht with rfl | rfl | rfl | h
      · decide
      · decide
      · decide
      · simp at h

/-- Transport that succeeds twice (status 0, then write-enable) and then
fails. -/
def c10OracleA : Nat → Option (List Nat) := fun i => if i < 2 then some [0, 0] else none

/-- Transport that succeeds three times (the third poll shows WEL clear) and
then fails. -/
def c10OracleB : Nat → Option (List Nat) := fun i => if i < 3 then some [0, 0] else none

theorem c10_pageProgram_wel_check_read_failure_aborts_witness :
    Flash.pageProgram 1 7 [9] ⟨c10OracleA, 0⟩ =
      ⟨.spiErr, ⟨c10OracleA, 3⟩, List.replicate 1 statusTx ++ [weTx, statusTx], []⟩ ∧
    Flash.pageProgram 1 7 [9] ⟨c10OracleB, 0⟩ =
      ⟨.spiErr, ⟨c10OracleB, 4⟩, List.replicate 1 statusTx ++ [weTx, statusTx, statusTx], []⟩ :=
  ⟨((c10_pageProgram_wel_check_read_failure_aborts 0 1 7 [9] ⟨c10OracleA, 0⟩ (by decide)
      (by decide) (by decide) (by decide) (by decide)).1 rfl).1,
    ((c10_pageProgram_wel_check_read_failure_aborts 0 1 7 [9] ⟨c10OracleB, 0⟩ (by decide)
      (by decide) (by decide) (by decide) (by decide)).2 (by decide) (by decide) rfl).1⟩

end W25
